import Mathlib

/-!
# Verification of the fiddle-core version lifecycle manager and bisect driver

This file gives a shallow embedding of the core of `@electron/fiddle-core`:

* the `Installer` class (src `installer.ts`): the per-version install-state
  map, the `setState`/`state`/`installedVersion` accessors, the
  `rebuildStates` startup scan, `ensureDownloaded` download dedup,
  `install` / `installVersionImpl`, and `remove`;
* the `Runner` class (src `runner.ts`): the exit-code → verdict mapping of
  `run`, and the `bisect` binary search with boundary confirmation and
  final classification.

Filesystem and subprocess effects are represented by explicit oracle
parameters (does a path exist, does a deletion attempt throw, what verdict
does a version produce); asynchronous promises are represented by opaque
numeric handles.  A JavaScript runtime crash (dereferencing `undefined`)
is modelled by an `Option` result being `none`.
-/

namespace FiddleCore

/-- The state of a current Electron version (`InstallState` in installer.ts). -/
inductive InstallState
  | missing
  | downloading
  | downloaded
  | installing
  | installed
deriving DecidableEq, Repr

/-- An event that indicates a change in the installation state of a version
(`InstallStateEvent` in installer.ts). -/
structure InstallStateEvent where
  version : String
  state : InstallState
deriving DecidableEq, Repr

/-- The installer's `stateMap`: a JavaScript `Map<string, InstallState>`
modelled as an association list kept in insertion order. -/
abbrev StateMap := List (String × InstallState)

/-- JavaScript `Map.get`: value of the first entry with the given key. -/
def mapGet (m : StateMap) (v : String) : Option InstallState :=
  (m.find? (fun p => decide (p.1 = v))).map (fun p => p.2)

/-- JavaScript `Map.set`: replace the value at an existing key in place,
otherwise append a new entry at the end. -/
def mapSet : StateMap → String → InstallState → StateMap
  | [], v, s => [(v, s)]
  | (k, x) :: rest, v, s =>
      if k = v then (k, s) :: rest else (k, x) :: mapSet rest v s

/-- JavaScript `Map.delete`: remove the entry with the given key. -/
def mapDelete : StateMap → String → StateMap
  | [], _ => []
  | (k, x) :: rest, v => if k = v then rest else (k, x) :: mapDelete rest v

/-- A JavaScript `Map` has no duplicate keys; association lists produced by
`mapSet`/`mapDelete` from the empty map always satisfy this. -/
def KeysNodup (m : StateMap) : Prop := (m.map Prod.fst).Nodup

instance : DecidablePred KeysNodup := fun m =>
  inferInstanceAs (Decidable (m.map Prod.fst).Nodup)

/-- Invariant A of the spec: no two entries of the state map hold state
`installed` for two different versions. -/
def AtMostOneInstalled (m : StateMap) : Prop :=
  ∀ p ∈ m, ∀ q ∈ m, p.2 = InstallState.installed → q.2 = InstallState.installed → p.1 = q.1

instance : DecidablePred AtMostOneInstalled := fun m =>
  inferInstanceAs (Decidable (∀ p ∈ m, ∀ q ∈ m, _ → _ → _))

/-- In-memory state of an `Installer` instance: the state map, the set of
currently-installing versions, the map of in-flight download promises
(promises are opaque numeric handles), and the `state-changed` events
emitted so far (oldest first). -/
structure InstallerState where
  stateMap : StateMap
  installing : List String
  downloading : List (String × Nat)
  events : List InstallStateEvent
deriving DecidableEq, Repr

namespace Installer

/-- `Installer.state`: installation state for a specific version,
defaulting to `missing` when the version is absent from the map. -/
def state (st : InstallerState) (version : String) : InstallState :=
  (mapGet st.stateMap version).getD InstallState.missing

/-- `Installer.setState`: apply the new state (deleting the entry when the
state is `missing`) and emit a `state-changed` event exactly when the
observable state changed. -/
def setState (st : InstallerState) (version : String) (s : InstallState) :
    InstallerState :=
  let oldState := state st version
  let m := if s = InstallState.missing
    then mapDelete st.stateMap version
    else mapSet st.stateMap version s
  let st' := { st with stateMap := m }
  let newState := state st' version
  if oldState ≠ newState then
    { st' with events := st'.events ++ [⟨version, newState⟩] }
  else st'

/-- `Installer.installedVersion`: linear scan for the first entry whose
state is `installed`. -/
def installedVersion (st : InstallerState) : Option String :=
  (st.stateMap.find? (fun p => decide (p.2 = InstallState.installed))).map (fun p => p.1)

end Installer

/-! ## Lemmas about the state-map operations -/

theorem keysNodup_cons {k : String} {x : InstallState} {rest : StateMap}
    (hnd : KeysNodup ((k, x) :: rest)) :
    (∀ p ∈ rest, p.1 ≠ k) ∧ KeysNodup rest := by
  have h := hnd
  simp only [KeysNodup, List.map_cons, List.nodup_cons] at h
  refine ⟨?_, h.2⟩
  intro p hp hpk
  exact h.1 (List.mem_map.mpr ⟨p, hp, hpk⟩)

theorem mapGet_mapSet_self (m : StateMap) (v : String) (s : InstallState) :
    mapGet (mapSet m v s) v = some s := by
  induction m with
  | nil => simp [mapSet, mapGet]
  | cons p rest ih =>
    obtain ⟨k, x⟩ := p
    by_cases h : k = v
    · simp [mapSet, h, mapGet]
    · simpa [mapSet, h, mapGet, List.find?_cons] using ih

theorem mapGet_mapSet_ne (m : StateMap) (v u : String) (s : InstallState)
    (h : u ≠ v) : mapGet (mapSet m v s) u = mapGet m u := by
  induction m with
  | nil => simp [mapSet, mapGet, Ne.symm h]
  | cons p rest ih =>
    obtain ⟨k, x⟩ := p
    by_cases hk : k = v
    · subst hk
      simp [mapSet, mapGet, List.find?_cons, Ne.symm h]
    · by_cases hu : k = u
      · subst hu
        simp [mapSet, hk, mapGet, List.find?_cons]
      · simpa [mapSet, hk, mapGet, List.find?_cons, hu] using ih

theorem mapGet_mapDelete_self (m : StateMap) (v : String)
    (hnd : KeysNodup m) : mapGet (mapDelete m v) v = none := by
  induction m with
  | nil => simp [mapDelete, mapGet]
  | cons p rest ih =>
    obtain ⟨k, x⟩ := p
    obtain ⟨hk_ne, hnd'⟩ := keysNodup_cons hnd
    by_cases h : k = v
    · subst h
      rw [show mapDelete ((k, x) :: rest) k = rest from by simp [mapDelete]]
      rcases hfind : rest.find? (fun p => decide (p.1 = k)) with _ | q
      · rw [mapGet, hfind]; rfl
      · exfalso
        have hq := List.find?_some hfind
        have hqm := List.mem_of_find?_eq_some hfind
        exact hk_ne q hqm (by simpa using hq)
    · simpa [mapDelete, h, mapGet, List.find?_cons, h] using ih hnd'

theorem mapGet_mapDelete_ne (m : StateMap) (v u : String) (h : u ≠ v) :
    mapGet (mapDelete m v) u = mapGet m u := by
  induction m with
  | nil => simp [mapDelete]
  | cons p rest ih =>
    obtain ⟨k, x⟩ := p
    by_cases hk : k = v
    · subst hk
      simp [mapDelete, mapGet, List.find?_cons, Ne.symm h]
    · by_cases hu : k = u
      · subst hu
        simp [mapDelete, hk, mapGet, List.find?_cons]
      · simpa [mapDelete, hk, mapGet, List.find?_cons, hu] using ih

theorem mem_mapSet (m : StateMap) (v : String) (s : InstallState)
    (hnd : KeysNodup m) :
    ∀ p ∈ mapSet m v s, p = (v, s) ∨ (p ∈ m ∧ p.1 ≠ v) := by
  induction m with
  | nil => intro p hp; simp [mapSet] at hp; simp [hp]
  | cons q rest ih =>
    obtain ⟨k, x⟩ := q
    obtain ⟨hk_ne, hnd'⟩ := keysNodup_cons hnd
    intro p hp
    by_cases h : k = v
    · subst h
      simp only [mapSet, if_pos rfl] at hp
      rcases List.mem_cons.mp hp with h1 | h2
      · exact Or.inl h1
      · exact Or.inr ⟨List.mem_cons.mpr (Or.inr h2), hk_ne p h2⟩
    · simp only [mapSet, if_neg h] at hp
      rcases List.mem_cons.mp hp with h1 | h2
      · subst h1; exact Or.inr ⟨List.mem_cons.mpr (Or.inl rfl), h⟩
      · rcases ih hnd' p h2 with h3 | h3
        · exact Or.inl h3
        · exact Or.inr ⟨List.mem_cons.mpr (Or.inr h3.1), h3.2⟩

theorem mem_mapDelete (m : StateMap) (v : String) :
    ∀ p ∈ mapDelete m v, p ∈ m := by
  induction m with
  | nil => intro p hp; simp [mapDelete] at hp
  | cons q rest ih =>
    obtain ⟨k, x⟩ := q
    intro p hp
    by_cases h : k = v
    · simp only [mapDelete, if_pos h] at hp
      exact List.mem_cons.mpr (Or.inr hp)
    · simp only [mapDelete, if_neg h] at hp
      rcases List.mem_cons.mp hp with h1 | h2
      · exact List.mem_cons.mpr (Or.inl h1)
      · exact List.mem_cons.mpr (Or.inr (ih p h2))

theorem keysNodup_mapSet (m : StateMap) (v : String) (s : InstallState)
    (hnd : KeysNodup m) : KeysNodup (mapSet m v s) := by
  induction m with
  | nil => simp [mapSet, KeysNodup]
  | cons q rest ih =>
    obtain ⟨k, x⟩ := q
    obtain ⟨hk_ne, hnd'⟩ := keysNodup_cons hnd
    by_cases h : k = v
    · subst h
      simp only [mapSet, if_pos rfl]
      simp only [KeysNodup, List.map_cons] at hnd ⊢
      exact hnd
    · have hrest := ih hnd'
      simp only [mapSet, if_neg h]
      simp only [KeysNodup, List.map_cons]
      refine List.nodup_cons.mpr ⟨?_, hrest⟩
      intro hmem
      rcases List.mem_map.mp hmem with ⟨p, hp, hpk⟩
      rcases mem_mapSet rest v s hnd' p hp with h1 | h1
      · rw [h1] at hpk; exact h hpk.symm
      · exact hk_ne p h1.1 hpk

theorem keysNodup_mapDelete (m : StateMap) (v : String)
    (hnd : KeysNodup m) : KeysNodup (mapDelete m v) := by
  induction m with
  | nil => simp [mapDelete, KeysNodup]
  | cons q rest ih =>
    obtain ⟨k, x⟩ := q
    obtain ⟨hk_ne, hnd'⟩ := keysNodup_cons hnd
    by_cases h : k = v
    · simpa [mapDelete, h] using hnd'
    · have hrest := ih hnd'
      simp only [mapDelete, if_neg h]
      simp only [KeysNodup, List.map_cons]
      refine List.nodup_cons.mpr ⟨?_, hrest⟩
      intro hmem
      rcases List.mem_map.mp hmem with ⟨p, hp, hpk⟩
      exact hk_ne p (mem_mapDelete rest v p hp) hpk

theorem mem_mapDelete_key (m : StateMap) (v : String) (hnd : KeysNodup m) :
    ∀ p ∈ mapDelete m v, p ∈ m ∧ p.1 ≠ v := by
  induction m with
  | nil => intro p hp; simp [mapDelete] at hp
  | cons q rest ih =>
    obtain ⟨k, x⟩ := q
    obtain ⟨hk_ne, hnd'⟩ := keysNodup_cons hnd
    intro p hp
    by_cases h : k = v
    · subst h
      simp only [mapDelete, if_pos rfl] at hp
      exact ⟨List.mem_cons.mpr (Or.inr hp), hk_ne p hp⟩
    · simp only [mapDelete, if_neg h] at hp
      rcases List.mem_cons.mp hp with h1 | h2
      · subst h1; exact ⟨List.mem_cons.mpr (Or.inl rfl), h⟩
      · obtain ⟨h3, h4⟩ := ih hnd' p h2
        exact ⟨List.mem_cons.mpr (Or.inr h3), h4⟩

/-! ## Lemmas about `setState`, `state` and `installedVersion` -/

theorem stateMap_setState (st : InstallerState) (v : String) (s : InstallState) :
    (Installer.setState st v s).stateMap =
      if s = InstallState.missing then mapDelete st.stateMap v
      else mapSet st.stateMap v s := by
  unfold Installer.setState
  simp only []
  split <;> (split <;> rfl)

theorem installing_setState (st : InstallerState) (v : String) (s : InstallState) :
    (Installer.setState st v s).installing = st.installing := by
  unfold Installer.setState
  simp only []
  split <;> (split <;> rfl)

theorem downloading_setState (st : InstallerState) (v : String) (s : InstallState) :
    (Installer.setState st v s).downloading = st.downloading := by
  unfold Installer.setState
  simp only []
  split <;> (split <;> rfl)

theorem keysNodup_setState (st : InstallerState) (v : String) (s : InstallState)
    (hnd : KeysNodup st.stateMap) : KeysNodup (Installer.setState st v s).stateMap := by
  rw [stateMap_setState]
  split
  · exact keysNodup_mapDelete _ _ hnd
  · exact keysNodup_mapSet _ _ _ hnd

theorem state_setState_self (st : InstallerState) (v : String) (s : InstallState)
    (hnd : KeysNodup st.stateMap) :
    Installer.state (Installer.setState st v s) v = s := by
  unfold Installer.state
  rw [stateMap_setState]
  by_cases h : s = InstallState.missing
  · rw [if_pos h, mapGet_mapDelete_self _ _ hnd, h]; rfl
  · rw [if_neg h, mapGet_mapSet_self]; rfl

theorem state_setState_ne (st : InstallerState) (v u : String) (s : InstallState)
    (h : u ≠ v) :
    Installer.state (Installer.setState st v s) u = Installer.state st u := by
  unfold Installer.state
  rw [stateMap_setState]
  by_cases hs : s = InstallState.missing
  · rw [if_pos hs, mapGet_mapDelete_ne _ _ _ h]
  · rw [if_neg hs, mapGet_mapSet_ne _ _ _ _ h]

theorem mem_setState (st : InstallerState) (v : String) (s : InstallState)
    (hnd : KeysNodup st.stateMap) :
    ∀ p ∈ (Installer.setState st v s).stateMap,
      (p = (v, s) ∧ s ≠ InstallState.missing) ∨ (p ∈ st.stateMap ∧ p.1 ≠ v) := by
  intro p hp
  rw [stateMap_setState] at hp
  by_cases hs : s = InstallState.missing
  · rw [if_pos hs] at hp
    exact Or.inr (mem_mapDelete_key _ _ hnd p hp)
  · rw [if_neg hs] at hp
    rcases mem_mapSet _ _ _ hnd p hp with h1 | h1
    · exact Or.inl ⟨h1, hs⟩
    · exact Or.inr h1

/-- No entry other than (possibly) `w` is in state `installed`. -/
def NoOtherInstalled (m : StateMap) (w : String) : Prop :=
  ∀ p ∈ m, p.2 = InstallState.installed → p.1 = w

theorem noOther_of_installedVersion (st : InstallerState) (w : String)
    (hamo : AtMostOneInstalled st.stateMap)
    (hw : Installer.installedVersion st = some w) :
    NoOtherInstalled st.stateMap w := by
  unfold Installer.installedVersion at hw
  rcases hfind : st.stateMap.find? (fun p => decide (p.2 = InstallState.installed)) with _ | q
  · rw [hfind] at hw; simp at hw
  · rw [hfind] at hw
    have hq1 : q.1 = w := by simpa using hw
    have hq2 : q.2 = InstallState.installed := by simpa using List.find?_some hfind
    have hqm : q ∈ st.stateMap := List.mem_of_find?_eq_some hfind
    intro p hp hpi
    rw [← hq1]
    exact hamo p hp q hqm hpi hq2

theorem noInstalled_of_installedVersion_none (st : InstallerState)
    (h : Installer.installedVersion st = none) :
    ∀ p ∈ st.stateMap, p.2 ≠ InstallState.installed := by
  unfold Installer.installedVersion at h
  rcases hfind : st.stateMap.find? (fun p => decide (p.2 = InstallState.installed)) with _ | q
  · intro p hp hpi
    have := List.find?_eq_none.mp hfind p hp
    simp [hpi] at this
  · rw [hfind] at h; simp at h

theorem noOther_setState (st : InstallerState) (v w : String) (s : InstallState)
    (hnd : KeysNodup st.stateMap) (hs : s ≠ InstallState.installed)
    (h : NoOtherInstalled st.stateMap w) :
    NoOtherInstalled (Installer.setState st v s).stateMap w := by
  intro p hp hpi
  rcases mem_setState st v s hnd p hp with h1 | h1
  · exfalso; apply hs; rw [← hpi, h1.1]
  · exact h p h1.1 hpi

theorem noInstalled_setState_demote (st : InstallerState) (w : String)
    (hnd : KeysNodup st.stateMap)
    (h : NoOtherInstalled st.stateMap w) :
    ∀ p ∈ (Installer.setState st w InstallState.downloaded).stateMap,
      p.2 ≠ InstallState.installed := by
  intro p hp hpi
  rcases mem_setState st w InstallState.downloaded hnd p hp with h1 | h1
  · rw [h1.1] at hpi; exact InstallState.noConfusion hpi
  · exact h1.2 (h p h1.1 hpi)

theorem amo_setState_installed (st : InstallerState) (v : String)
    (hnd : KeysNodup st.stateMap)
    (h : NoOtherInstalled st.stateMap v) :
    AtMostOneInstalled (Installer.setState st v InstallState.installed).stateMap := by
  intro p hp q hq hpi hqi
  rcases mem_setState st v InstallState.installed hnd p hp with h1 | h1 <;>
    rcases mem_setState st v InstallState.installed hnd q hq with h2 | h2
  · rw [h1.1, h2.1]
  · exact absurd (h q h2.1 hqi) h2.2
  · exact absurd (h p h1.1 hpi) h1.2
  · exact absurd (h p h1.1 hpi) h1.2

theorem amo_setState_not_installed (st : InstallerState) (v : String)
    (s : InstallState) (hnd : KeysNodup st.stateMap)
    (hs : s ≠ InstallState.installed)
    (hamo : AtMostOneInstalled st.stateMap) :
    AtMostOneInstalled (Installer.setState st v s).stateMap := by
  intro p hp q hq hpi hqi
  rcases mem_setState st v s hnd p hp with h1 | h1 <;>
    rcases mem_setState st v s hnd q hq with h2 | h2
  · rw [h1.1, h2.1]
  · exfalso; apply hs; rw [← hpi, h1.1]
  · exfalso; apply hs; rw [← hqi, h2.1]
  · exact hamo p h1.1 q h2.1 hpi hqi

/-! ## The installer operations -/

/-- The two cache directories used by the installer (paths.ts `Paths`). -/
structure Paths where
  electronDownloads : String
  electronInstall : String
deriving DecidableEq, Repr

/-- `getZipName` in installer.ts: the cache file name of a release zip. -/
def getZipName (platform arch version : String) : String :=
  "electron-v" ++ version ++ "-" ++ platform ++ "-" ++ arch ++ ".zip"

namespace Installer

/-- `Installer.execSubpath`: executable subpath for a platform. -/
def execSubpath (platform : String) : String :=
  match platform with
  | "darwin" => "Electron.app/Contents/MacOS/Electron"
  | "win32" => "electron.exe"
  | _ => "electron"

/-- `Installer.getExecPath`: `path.join(folder, execSubpath())`, with
`path.join` modelled as slash concatenation. -/
def getExecPath (platform folder : String) : String :=
  folder ++ "/" ++ execSubpath platform

end Installer

/-- `ElectronBinary` in installer.ts. -/
structure ElectronBinary where
  path : String
  alreadyExtracted : Bool
deriving DecidableEq, Repr

/-- Filesystem/network oracle for one run of `ensureDownloadedImpl`:
whether the cached zip exists, whether the pre-extracted directory for the
version exists, and whether the network download succeeds. -/
structure DownloadEnv where
  zipFileExists : Bool
  preInstalledPathExists : Bool
  downloadOk : Bool
deriving DecidableEq, Repr

/-- `Installer.ensureDownloadedImpl`: fast path returning the
pre-extracted directory, fast path returning the cached zip, or the slow
download path with `downloading → downloaded` transitions and rollback to
`missing` on failure (`Except.error` models the re-thrown exception). -/
def ensureDownloadedImpl (paths : Paths) (platform arch : String)
    (st : InstallerState) (version : String) (env : DownloadEnv) :
    InstallerState × Except Unit ElectronBinary :=
  let zipFile := paths.electronDownloads ++ "/" ++ getZipName platform arch version
  let state0 := Installer.state st version
  if state0 = InstallState.downloaded ∧ ¬env.zipFileExists ∧ env.preInstalledPathExists then
    (st, Except.ok ⟨paths.electronDownloads ++ "/" ++ version, true⟩)
  else if state0 = InstallState.missing ∨ ¬env.zipFileExists then
    let st1 := Installer.setState st version InstallState.downloading
    if env.downloadOk then
      (Installer.setState st1 version InstallState.downloaded, Except.ok ⟨zipFile, false⟩)
    else
      (Installer.setState st1 version InstallState.missing, Except.error ())
  else
    (st, Except.ok ⟨zipFile, false⟩)

/-- Lookup in the `downloading` promise map (JavaScript `Map.get`). -/
def lookupDownloading (m : List (String × Nat)) (v : String) : Option Nat :=
  (m.find? (fun p => decide (p.1 = v))).map (fun p => p.2)

/-- Deletion from the `downloading` promise map (JavaScript `Map.delete`). -/
def deleteDownloading : List (String × Nat) → String → List (String × Nat)
  | [], _ => []
  | (k, x) :: rest, v => if k = v then rest else (k, x) :: deleteDownloading rest v

/-- How a pending download promise eventually settles. -/
inductive SettleOutcome
  | success
  | failure
deriving DecidableEq, Repr

namespace Installer

/-- `Installer.ensureDownloaded`: dedup of concurrent downloads.  If a
promise for this version is already in flight, return that very promise
and start nothing; otherwise register a fresh promise (represented by the
opaque handle `freshPromise`) in the map and start the underlying
`ensureDownloadedImpl` operation.  Returns the state, the promise handle
handed to the caller, and whether a new underlying operation was started. -/
def ensureDownloaded (st : InstallerState) (version : String)
    (freshPromise : Nat) : InstallerState × Nat × Bool :=
  match lookupDownloading st.downloading version with
  | some promise => (st, promise, false)
  | none =>
      ({ st with downloading := (version, freshPromise) :: st.downloading },
        freshPromise, true)

/-- The `.finally(() => promises.delete(version))` attached to the pending
download: runs when the promise settles, with the same effect whether it
settled by success or by failure. -/
def settleDownload (st : InstallerState) (version : String)
    (_outcome : SettleOutcome) : InstallerState :=
  { st with downloading := deleteDownloading st.downloading version }

end Installer

/-- The point of the install slow path at which a failure is injected:
clearing the active-install directory (`rimrafSync`), extracting the zip
(`extract`), or copying a pre-extracted source (`fs.copySync`). -/
inductive InstallStep
  | clearDir
  | extractArchive
  | copyPreExtracted
deriving DecidableEq, Repr

/-- `Installer.installVersionImpl`: remember the previous installed
version and this version's original state, transition to `installing`,
clear and repopulate the active-install directory (failure injected by
`failAt`), and on success demote the previous installed version to
`downloaded` and promote this one to `installed`; on failure restore the
original state and re-raise (`false`). -/
def installVersionImpl (st : InstallerState) (version : String)
    (failAt : Option InstallStep) : InstallerState × Bool :=
  let installedVersion := Installer.installedVersion st
  let originalState := Installer.state st version
  let st1 := Installer.setState st version InstallState.installing
  match failAt with
  | some _ => (Installer.setState st1 version originalState, false)
  | none =>
      let st2 := match installedVersion with
        | some prev => Installer.setState st1 prev InstallState.downloaded
        | none => st1
      (Installer.setState st2 version InstallState.installed, true)

/-- The observable points of `installVersionImpl`: the installer state
before the call, after each `setState`, and after the rollback or the
final promotion.  Subscribers to `state-changed` can observe exactly these
states. -/
def installVersionImplTrace (st : InstallerState) (version : String)
    (failAt : Option InstallStep) : List InstallerState :=
  let installedVersion := Installer.installedVersion st
  let originalState := Installer.state st version
  let st1 := Installer.setState st version InstallState.installing
  match failAt with
  | some _ => [st, st1, Installer.setState st1 version originalState]
  | none =>
      match installedVersion with
      | some prev =>
          let st2 := Installer.setState st1 prev InstallState.downloaded
          [st, st1, st2, Installer.setState st2 version InstallState.installed]
      | none => [st, st1, Installer.setState st1 version InstallState.installed]

/-- Errors surfaced by `install`. -/
inductive InstallError
  | currentlyInstalling (msg : String)
  | downloadError
  | installStepError
deriving DecidableEq, Repr

/-- Oracle for one run of `install`. -/
structure InstallEnv where
  download : DownloadEnv
  failAt : Option InstallStep
deriving DecidableEq, Repr

/-- `Installer.install`: reject immediately when this very version is
already being installed; otherwise add the version to the installing set,
run the body (fast path when already installed, else download then
`installVersionImpl`), and remove the version from the installing set in
the `finally` before returning or re-raising.  The download is modelled by
`ensureDownloadedImpl` (the promise-dedup wrapper is modelled separately
by `Installer.ensureDownloaded`; a sequential caller runs the impl).
`installBody` is the body of the try-block: fast path when the requested
version is already installed, else download then `installVersionImpl`. -/
def installBody (paths : Paths) (platform arch : String) (st1 : InstallerState)
    (version : String) (env : InstallEnv) : InstallerState × Except InstallError Unit :=
  if Installer.installedVersion st1 = some version then (st1, Except.ok ())
  else
    match ensureDownloadedImpl paths platform arch st1 version env.download with
    | (st2, Except.error _) => (st2, Except.error InstallError.downloadError)
    | (st2, Except.ok _bin) =>
        match installVersionImpl st2 version env.failAt with
        | (st3, true) => (st3, Except.ok ())
        | (st3, false) => (st3, Except.error InstallError.installStepError)

def Installer.install (paths : Paths) (platform arch : String)
    (st : InstallerState) (version : String) (env : InstallEnv) :
    InstallerState × Except InstallError String :=
  let electronExec := Installer.getExecPath platform paths.electronInstall
  if version ∈ st.installing then
    (st, Except.error (InstallError.currentlyInstalling
      ("Currently installing \"" ++ version ++ "\"")))
  else
    let st1 := { st with installing := version :: st.installing }
    let body := installBody paths platform arch st1 version env
    let st4 := { body.1 with installing := body.1.installing.erase version }
    match body.2 with
    | Except.ok _ => (st4, Except.ok electronExec)
    | Except.error e => (st4, Except.error e)

/-- The `rerunner` retry helper inside `Installer.remove`: run the cleanup
(the oracle `fails` says whether the attempt at a given counter throws);
on failure, recurse with `counter + 1` while `counter < 4` — but the
recursive call's return value is discarded, so the returned flag reports
only whether the attempt at this level's own counter succeeded.  Returns
the flag and the list of attempt counters actually performed. -/
def rerunner (fails : Nat → Bool) (counter : Nat) : Bool × List Nat :=
  if fails counter then
    (false, counter ::
      (if h : counter < 4 then (rerunner fails (counter + 1)).2 else []))
  else (true, [counter])
termination_by 4 - counter

/-- Deletion-attempt oracle for one run of `remove`: whether the
`binaryCleaner` call for each of the three targets throws at a given
attempt counter.  A `binaryCleaner` call on a path that does not exist is
a successful no-op, so "fails" means the path existed and its removal
threw. -/
structure RemoveEnv where
  zipCleanFails : Nat → Bool
  preInstalledCleanFails : Nat → Bool
  installCleanFails : Nat → Bool

/-- `Installer.remove`: best-effort deletion of the cached zip, the
pre-extracted directory and (when this version is the installed one) the
active-install directory, each through `rerunner`; the state transitions
to `missing` exactly when `(isZipDeleted || isPathDeleted) &&
isBinaryDeleted`, and otherwise only a warning is printed. -/
def Installer.remove (st : InstallerState) (version : String)
    (env : RemoveEnv) : InstallerState :=
  let isZipDeleted := (rerunner env.zipCleanFails 1).1
  let isPathDeleted := (rerunner env.preInstalledCleanFails 1).1
  let isBinaryDeleted :=
    if Installer.installedVersion st = some version then
      (rerunner env.installCleanFails 1).1
    else true
  if (isZipDeleted || isPathDeleted) && isBinaryDeleted then
    Installer.setState st version InstallState.missing
  else st

/-! ## Startup state rebuilding -/

/-- The `^electron-v(.*)-platform-arch.zip$` filename match in
`rebuildStates`, computed on the character lists.  The `.` before `zip`
is an unescaped regex wildcard, so the file name must end in
`-platform-arch`, then one arbitrary character, then `zip`; the captured
group is everything between the `electron-v` prefix and that suffix. -/
def matchZip (platform arch file : String) : Option String :=
  let pre := "electron-v".data
  let suf := ("-" ++ platform ++ "-" ++ arch).data
  let cs := file.data
  let tail := cs.drop pre.length
  if pre.isPrefixOf cs ∧ suf.length + 4 ≤ tail.length ∧
      "zip".data.isSuffixOf tail ∧
      suf.isSuffixOf (tail.take (tail.length - 4)) then
    some (String.mk (tail.take (tail.length - (suf.length + 4))))
  else none

/-- On-disk contents seen by `rebuildStates`: the trimmed contents of the
`version` marker file in the install directory (if readable), the listing
of the download directory (empty when the directory is missing), the
trimmed contents of each download-subdirectory `version` marker file (if
it exists), and the `semver.valid` oracle. -/
structure DiskState where
  installMarker : Option String
  downloadFiles : List String
  dirVersion : String → Option String
  validSemver : String → Bool

/-- One step of the download-directory scan in `rebuildStates`: a zip
filename match marks its version `downloaded`; otherwise a subdirectory
with a valid-semver `version` marker file marks that version
`downloaded`; anything else is skipped. -/
def downloadScanStep (platform arch : String) (dsk : DiskState)
    (acc : InstallerState) (file : String) : InstallerState :=
  match matchZip platform arch file with
  | some version => Installer.setState acc version InstallState.downloaded
  | none =>
      match dsk.dirVersion file with
      | some version =>
          if dsk.validSemver version then
            Installer.setState acc version InstallState.downloaded
          else acc
      | none => acc

/-- The version (if any) that `downloadScanStep` would mark `downloaded`
for a given directory entry. -/
def downloadScanKey (platform arch : String) (dsk : DiskState)
    (file : String) : Option String :=
  match matchZip platform arch file with
  | some version => some version
  | none =>
      match dsk.dirVersion file with
      | some version =>
          if dsk.validSemver version then some version else none
      | none => none

/-- `Installer.rebuildStates`: clear the state map, then set states from
the install-directory marker (`installed`), the in-flight installing set
(`installing`), the download-directory scan (`downloaded`), and the
in-flight download map (`downloading`), in that order.  Later `setState`
calls overwrite earlier ones for the same version. -/
def Installer.rebuildStates (platform arch : String) (dsk : DiskState)
    (st0 : InstallerState) : InstallerState :=
  let st := { st0 with stateMap := [] }
  let st := match dsk.installMarker with
    | some version => Installer.setState st version InstallState.installed
    | none => st
  let st := st0.installing.foldl
    (fun acc version => Installer.setState acc version InstallState.installing) st
  let st := dsk.downloadFiles.foldl (downloadScanStep platform arch dsk) st
  (st0.downloading.map Prod.fst).foldl
    (fun acc version => Installer.setState acc version InstallState.downloading) st

/-! ## The Runner: verdicts and the bisect driver -/

/-- `TestResult.status` in runner.ts. -/
inductive TestResult
  | test_passed
  | test_failed
  | test_error
  | system_error
deriving DecidableEq, Repr

/-- `BisectResult.status` in runner.ts. -/
inductive BisectStatus
  | bisect_succeeded
  | test_error
  | system_error
deriving DecidableEq, Repr

/-- `BisectResult` in runner.ts: an optional version range and a status. -/
structure BisectResult where
  range : Option (String × String)
  status : BisectStatus
deriving DecidableEq, Repr

/-- How the spawned child process concluded: a spawn `error` event, or an
`exit` event with an exit code (`none` models a `null` code from a signal
termination). -/
inductive ProcessOutcome
  | errored
  | exited (code : Option Int)
deriving DecidableEq, Repr

/-- The promise resolution in `Runner.run`: `error` resolves to
`system_error`; `exit` with code 0 resolves to `test_passed`, code 1 to
`test_failed`, and anything else to `test_error`.  The function is total:
every outcome resolves the promise, none rejects it. -/
def runVerdict : ProcessOutcome → TestResult
  | ProcessOutcome.errored => TestResult.system_error
  | ProcessOutcome.exited code =>
      if code = some 0 then TestResult.test_passed
      else if code = some 1 then TestResult.test_failed
      else TestResult.test_error

/-- `versions[i]` with JavaScript array semantics: `none` when the index
is out of range (reading such an element yields `undefined`). -/
def verGet (versions : List String) (i : Int) : Option String :=
  if i < 0 then none else versions.get? i.toNat

/-- `results[i]` on the sparse results array: `none` for a hole or an
out-of-range index. -/
def arrGet (results : List (Option TestResult)) (i : Int) : Option TestResult :=
  if i < 0 then none else ((results.get? i.toNat).bind id)

/-- `results[i] = r`.  All writes performed by `bisect` are at indices
inside the array, so the out-of-range case never fires. -/
def arrSet (results : List (Option TestResult)) (i : Int) (r : TestResult) :
    List (Option TestResult) :=
  if i < 0 then results else results.set i.toNat (some r)

/-- The terminal state of the `bisect` search: the two index pointers, the
last verdict seen by the while loop (`result` in the source, `none` if the
loop body never ran), and the results array. -/
structure BisectState where
  left : Int
  right : Int
  result : Option TestResult
  results : List (Option TestResult)
deriving DecidableEq, Repr

/-- The `while (left + 1 < right)` loop of `Runner.bisect`.  The midpoint
`Math.round(left + (right - left) / 2)` rounds the only possible fraction
`.5` up, which on integers is `left + (right - left + 1) / 2`; it is
computed here with natural division (in the loop `right - left ≥ 2`, so
the truncation in `toNat` never fires).  A `test_passed` verdict moves
`left` to the midpoint, `test_failed` moves `right`, and any other verdict
breaks out of the loop.  `none` models the TypeError of reading
`versions[mid].version` when `versions[mid]` is `undefined`. -/
def bisectLoop (versions : List String) (verdict : String → TestResult) :
    Int → Int → Option TestResult → List (Option TestResult) → Option BisectState
  | left, right, res, results =>
    if _h : left + 1 < right then
      let mid : Int := left + (((right - left + 1).toNat / 2 : Nat) : Int)
      match verGet versions mid with
      | none => none
      | some ver =>
          let r := verdict ver
          let results1 := arrSet results mid r
          match r with
          | TestResult.test_passed =>
              bisectLoop versions verdict mid right (some r) results1
          | TestResult.test_failed =>
              bisectLoop versions verdict left mid (some r) results1
          | _ => some ⟨left, right, some r, results1⟩
    else some ⟨left, right, res, results⟩
termination_by left right _ _ => (right - left).toNat

/-- The boundary-confirmation runs after the loop: run the version at each
listed position and record its verdict, crashing (`none`) if the position
is outside the versions array. -/
def runBoundaries (versions : List String) (verdict : String → TestResult) :
    List Int → List (Option TestResult) → Option (List (Option TestResult))
  | [], results => some results
  | pos :: rest, results =>
      match verGet versions pos with
      | none => none
      | some ver => runBoundaries versions verdict rest (arrSet results pos (verdict ver))

/-- The `boundaries` list built after the loop: position 0 when `left` is
still at the original lower bound and untested, then position `N - 1` when
`right` is still at the original upper bound and untested (both
membership tests read the results array before any boundary run). -/
def boundariesOf (versions : List String) (st : BisectState) : List Int :=
  (if st.left = 0 ∧ arrGet st.results 0 = none then [(0 : Int)] else []) ++
    (if st.right = (versions.length : Int) - 1 ∧
        arrGet st.results ((versions.length : Int) - 1) = none
      then [(versions.length : Int) - 1] else [])

/-- The search phase of `Runner.bisect`: the binary-search loop from
`left = 0`, `right = N - 1` over a hole-filled results array, followed by
boundary confirmation. -/
def bisectSearch (versions : List String) (verdict : String → TestResult) :
    Option BisectState :=
  match bisectLoop versions verdict 0 ((versions.length : Int) - 1) none
      (List.replicate versions.length none) with
  | none => none
  | some st =>
      match runBoundaries versions verdict (boundariesOf versions st) st.results with
      | none => none
      | some results2 => some { st with results := results2 }

/-- The final classification of `Runner.bisect`: success exactly when
`results[left]` is `test_passed` and `results[right]` is `test_failed`
(reporting the version pair at the pointers); otherwise the loop-aborting
verdict's status if it was `test_error`/`system_error`; otherwise
`test_error` when the two boundary results are equal; otherwise
`system_error`.  Reading `.status` of a missing results entry is the
TypeError crash, modelled by `none`. -/
def classify (versions : List String) (st : BisectState) : Option BisectResult :=
  match arrGet st.results st.left, arrGet st.results st.right with
  | some rl, some rr =>
      if rl = TestResult.test_passed ∧ rr = TestResult.test_failed then
        match verGet versions st.left, verGet versions st.right with
        | some good, some bad =>
            some ⟨some (good, bad), BisectStatus.bisect_succeeded⟩
        | _, _ => none
      else if st.result = some TestResult.test_error then
        some ⟨none, BisectStatus.test_error⟩
      else if st.result = some TestResult.system_error then
        some ⟨none, BisectStatus.system_error⟩
      else if rl = rr then some ⟨none, BisectStatus.test_error⟩
      else some ⟨none, BisectStatus.system_error⟩
  | _, _ => none

/-- `Runner.bisect` for a resolved version list and a deterministic
verdict oracle for `Runner.run`: search, confirm boundaries, classify.
`none` models the call rejecting with a TypeError. -/
def bisect (versions : List String) (verdict : String → TestResult) :
    Option BisectResult :=
  match bisectSearch versions verdict with
  | none => none
  | some st => classify versions st

/-! ## Auxiliary lemmas for the download map and the results array -/

/-- The `downloading` map, like every JavaScript `Map`, has unique keys. -/
def DownloadingNodup (m : List (String × Nat)) : Prop := (m.map Prod.fst).Nodup

instance : DecidablePred DownloadingNodup := fun m =>
  inferInstanceAs (Decidable (m.map Prod.fst).Nodup)

theorem lookupDownloading_deleteDownloading_self (m : List (String × Nat))
    (v : String) (hnd : DownloadingNodup m) :
    lookupDownloading (deleteDownloading m v) v = none := by
  induction m with
  | nil => simp [deleteDownloading, lookupDownloading]
  | cons p rest ih =>
    obtain ⟨k, x⟩ := p
    have hk_notin : k ∉ rest.map Prod.fst := by
      have h := hnd
      simp only [DownloadingNodup, List.map_cons, List.nodup_cons] at h
      exact h.1
    have hnd' : DownloadingNodup rest := by
      have h := hnd
      simp only [DownloadingNodup, List.map_cons, List.nodup_cons] at h
      exact h.2
    by_cases h : k = v
    · subst h
      rw [show deleteDownloading ((k, x) :: rest) k = rest from by
        simp [deleteDownloading]]
      rcases hfind : rest.find? (fun p => decide (p.1 = k)) with _ | q
      · rw [lookupDownloading, hfind]; rfl
      · exfalso
        have hq := List.find?_some hfind
        have hqm := List.mem_of_find?_eq_some hfind
        exact hk_notin (List.mem_map.mpr ⟨q, hqm, by simpa using hq⟩)
    · simpa [deleteDownloading, h, lookupDownloading, List.find?_cons, h]
        using ih hnd'

theorem length_arrSet (l : List (Option TestResult)) (i : Int) (r : TestResult) :
    (arrSet l i r).length = l.length := by
  unfold arrSet
  split
  · rfl
  · exact List.length_set l i.toNat (some r)

theorem arrGet_arrSet_self (l : List (Option TestResult)) (i : Int)
    (r : TestResult) (h0 : 0 ≤ i) (hlen : i.toNat < l.length) :
    arrGet (arrSet l i r) i = some r := by
  unfold arrSet arrGet
  rw [if_neg (by omega), if_neg (by omega)]
  rw [List.get?_set_eq_of_lt _ hlen]
  rfl

theorem arrGet_arrSet_ne (l : List (Option TestResult)) (i j : Int)
    (r : TestResult) (h : i ≠ j) :
    arrGet (arrSet l i r) j = arrGet l j := by
  unfold arrSet arrGet
  by_cases hi : i < 0
  · rw [if_pos hi]
  · rw [if_neg hi]
    by_cases hj : j < 0
    · rw [if_pos hj, if_pos hj]
    · rw [if_neg hj, if_neg hj]
      rw [List.get?_set_ne _ _ (by omega)]

theorem arrGet_replicate (n : Nat) (i : Int) :
    arrGet (List.replicate n (none : Option TestResult)) i = none := by
  unfold arrGet
  split
  · rfl
  · rcases h : (List.replicate n (none : Option TestResult)).get? i.toNat with _ | x
    · rfl
    · have hx : x = none := List.eq_of_mem_replicate (List.get?_mem h)
      simp [hx]

theorem verGet_eq_get? (versions : List String) (i : Int) (h0 : 0 ≤ i) :
    verGet versions i = versions.get? i.toNat := by
  unfold verGet
  rw [if_neg (by omega)]

/-! ## Concrete inputs used by the witnesses and counterexamples -/

def demoPaths : Paths := ⟨"/data/electron/zips", "/data/electron/current"⟩

/-- An installer state where `12.0.15` is installed and `13.1.7` is
downloaded, nothing in flight. -/
def demoState : InstallerState :=
  ⟨[("12.0.15", InstallState.installed), ("13.1.7", InstallState.downloaded)],
    [], [], []⟩

/-- An installer state where an install of `12.0.15` is in flight. -/
def demoBusyState : InstallerState :=
  ⟨[("13.1.7", InstallState.downloaded)], ["12.0.15"], [], []⟩

/-- An installer state with a pending download promise (handle 7) for
`13.1.7`. -/
def demoDownloadingState : InstallerState :=
  ⟨[("13.1.7", InstallState.downloading)], [], [("13.1.7", 7)], []⟩

def demoEnv : InstallEnv := ⟨⟨true, false, true⟩, none⟩

/-- The six-version bisect scenario from the spec: `12.0.0 .. 12.0.4`
pass and `12.0.5` fails. -/
def demoVersions : List String :=
  ["12.0.0", "12.0.1", "12.0.2", "12.0.3", "12.0.4", "12.0.5"]

def demoVerdict : String → TestResult := fun v =>
  if v = "12.0.5" then TestResult.test_failed else TestResult.test_passed

/-- A removal oracle where deleting the zip throws on the first attempt
only, deleting the pre-extracted directory always throws, and deleting the
active install never throws. -/
def demoRemoveEnv : RemoveEnv :=
  ⟨fun n => n == 1, fun _ => true, fun _ => false⟩

/-- A state where `13.1.7` is downloaded (its zip is on disk), nothing in
flight. -/
def demoDownloadedState : InstallerState :=
  ⟨[("13.1.7", InstallState.downloaded)], [], [], []⟩

/-- Disk contents where the install-directory marker names `13.1.7` and
the download directory holds that same version's zip. -/
def demoDisk : DiskState :=
  ⟨some "13.1.7", ["electron-v13.1.7-linux-x64.zip"], fun _ => none, fun _ => false⟩

/-- Disk contents where the marker names `13.1.7` but the download
directory holds only another version's zip. -/
def demoDiskOther : DiskState :=
  ⟨some "13.1.7", ["electron-v12.0.15-linux-x64.zip"], fun _ => none, fun _ => false⟩

def emptyInstallerState : InstallerState := ⟨[], [], [], []⟩

/-- The all-errors bisect scenario from the repository's tests. -/
def demoErrVersions : List String := ["12.0.0", "12.0.1", "12.0.2"]

def demoErrVerdict : String → TestResult := fun _ => TestResult.test_error

/-! ## The claims -/

/-- C10: `Runner.run` totally maps the child-process outcome to a verdict
and never rejects because of it: exit code 0 resolves to `test_passed`,
exit code 1 to `test_failed`, every other exit code (including a `null`
code) to `test_error`, and a spawn `error` event to `system_error`. -/
theorem run_total_verdict_mapping :
    runVerdict ProcessOutcome.errored = TestResult.system_error ∧
    runVerdict (ProcessOutcome.exited (some 0)) = TestResult.test_passed ∧
    runVerdict (ProcessOutcome.exited (some 1)) = TestResult.test_failed ∧
    runVerdict (ProcessOutcome.exited none) = TestResult.test_error ∧
    ∀ c : Int, c ≠ 0 → c ≠ 1 →
      runVerdict (ProcessOutcome.exited (some c)) = TestResult.test_error := by
  refine ⟨rfl, rfl, rfl, rfl, ?_⟩
  intro c h0 h1
  simp only [runVerdict]
  rw [if_neg (by simp [h0]), if_neg (by simp [h1])]

/-- Witness for C10 at exit code 999. -/
theorem run_total_verdict_mapping_witness :
    runVerdict (ProcessOutcome.exited (some 999)) = TestResult.test_error :=
  run_total_verdict_mapping.2.2.2.2 999 (by decide) (by decide)

/-- C4: `install(v)` called while an install of the same version `v` is in
flight fails immediately with the `Currently installing "<v>"` error and
leaves the state (hence the pending call) untouched, whereas an
`install(w)` for a version `w` not in the installing set is never rejected
with that error — the check is a per-version set membership test, not a
global flag. -/
theorem install_currently_installing_guard (paths : Paths)
    (platform arch : String) (st : InstallerState) (v w : String)
    (env env2 : InstallEnv) (hv : v ∈ st.installing) (hw : w ∉ st.installing) :
    Installer.install paths platform arch st v env =
      (st, Except.error (InstallError.currentlyInstalling
        ("Currently installing \"" ++ v ++ "\""))) ∧
    ∀ msg, (Installer.install paths platform arch st w env2).2 ≠
      Except.error (InstallError.currentlyInstalling msg) := by
  constructor
  · unfold Installer.install
    simp only []
    rw [if_pos hv]
  · intro msg
    unfold Installer.install
    simp only []
    rw [if_neg hw]
    rcases hbody : (installBody paths platform arch
        { st with installing := w :: st.installing } w env2).2 with e | u
    · rcases e with msg2 | _ | _
      · exfalso
        revert hbody
        unfold installBody
        split
        · intro h; simp at h
        · split
          · intro h; simp at h
          · split
            · intro h; simp at h
            · intro h; simp at h
      · simp
      · simp
    · simp

/-- Witness for C4: the busy state has `12.0.15` in flight. -/
theorem install_currently_installing_guard_witness :
    Installer.install demoPaths "linux" "x64" demoBusyState "12.0.15" demoEnv =
      (demoBusyState, Except.error (InstallError.currentlyInstalling
        "Currently installing \"12.0.15\"")) ∧
    (Installer.install demoPaths "linux" "x64" demoBusyState "13.1.7" demoEnv).2 ≠
      Except.error (InstallError.currentlyInstalling "Currently installing \"13.1.7\"") := by
  have h := install_currently_installing_guard demoPaths "linux" "x64"
    demoBusyState "12.0.15" "13.1.7" demoEnv demoEnv (by decide) (by decide)
  exact ⟨h.1, h.2 "Currently installing \"13.1.7\""⟩

/-- C5: `ensureDownloaded(v)` deduplicates concurrent requests per
version: a second call while a download of `v` is in flight returns the
very same pending promise handle and starts no second fetch (state
unchanged), and the in-flight map entry for `v` is removed once the
promise settles, whether it settled by success or by failure. -/
theorem ensureDownloaded_dedup (st : InstallerState) (v : String)
    (h fresh : Nat) (hin : lookupDownloading st.downloading v = some h)
    (hnd : DownloadingNodup st.downloading) :
    Installer.ensureDownloaded st v fresh = (st, h, false) ∧
    ∀ o : SettleOutcome,
      lookupDownloading (Installer.settleDownload st v o).downloading v = none := by
  constructor
  · unfold Installer.ensureDownloaded
    rw [hin]
  · intro o
    unfold Installer.settleDownload
    exact lookupDownloading_deleteDownloading_self _ _ hnd

/-- Witness for C5 at the pending-download state. -/
theorem ensureDownloaded_dedup_witness :
    Installer.ensureDownloaded demoDownloadingState "13.1.7" 42 =
      (demoDownloadingState, 7, false) ∧
    lookupDownloading
      (Installer.settleDownload demoDownloadingState "13.1.7"
        SettleOutcome.failure).downloading "13.1.7" = none := by
  have h := ensureDownloaded_dedup demoDownloadingState "13.1.7" 7 42
    (by decide) (by decide)
  exact ⟨h.1, h.2 SettleOutcome.failure⟩

/-- C3: if any step of the install slow path fails (clearing the
active-install directory, extracting the archive, or copying the
pre-extracted source), `installVersionImpl` restores `state(v)` to its
exact pre-install value, re-raises the failure (`false`), and `state(v)`
is not left as `installing` or `installed` (the pre-install state of a
version being installed is never one of those). -/
theorem installVersionImpl_failure_rollback (st : InstallerState)
    (v : String) (step : InstallStep) (hnd : KeysNodup st.stateMap)
    (h1 : Installer.state st v ≠ InstallState.installing)
    (h2 : Installer.state st v ≠ InstallState.installed) :
    Installer.state (installVersionImpl st v (some step)).1 v =
      Installer.state st v ∧
    (installVersionImpl st v (some step)).2 = false ∧
    Installer.state (installVersionImpl st v (some step)).1 v ≠
      InstallState.installing ∧
    Installer.state (installVersionImpl st v (some step)).1 v ≠
      InstallState.installed := by
  have hnd1 : KeysNodup (Installer.setState st v InstallState.installing).stateMap :=
    keysNodup_setState st v InstallState.installing hnd
  have hrestore :
      Installer.state (installVersionImpl st v (some step)).1 v =
        Installer.state st v := by
    unfold installVersionImpl
    simp only []
    exact state_setState_self _ v _ hnd1
  refine ⟨hrestore, ?_, ?_, ?_⟩
  · unfold installVersionImpl
    simp only []
  · rw [hrestore]; exact h1
  · rw [hrestore]; exact h2

/-- Witness for C3: failed extraction over a `downloaded` version. -/
theorem installVersionImpl_failure_rollback_witness :
    Installer.state
        (installVersionImpl demoDownloadedState "13.1.7"
          (some InstallStep.extractArchive)).1 "13.1.7" =
      Installer.state demoDownloadedState "13.1.7" ∧
    (installVersionImpl demoDownloadedState "13.1.7"
        (some InstallStep.extractArchive)).2 = false ∧
    Installer.state
        (installVersionImpl demoDownloadedState "13.1.7"
          (some InstallStep.extractArchive)).1 "13.1.7" ≠
      InstallState.installing ∧
    Installer.state
        (installVersionImpl demoDownloadedState "13.1.7"
          (some InstallStep.extractArchive)).1 "13.1.7" ≠
      InstallState.installed :=
  installVersionImpl_failure_rollback demoDownloadedState "13.1.7"
    InstallStep.extractArchive (by decide) (by decide) (by decide)

/-- C8 (failing input for the code bug): removing a downloaded version
whose zip deletion throws once and then succeeds on the retry (attempt 2
is performed and does not throw, as the attempt log shows), while the
pre-extracted-directory cleanup keeps throwing.  The claim (and the spec)
say the state must transition to `missing` because one of the deletions
succeeded on a retry; the code discards the recursive `rerunner` result,
counts the zip deletion as failed, and leaves the state unchanged. -/
theorem remove_retry_success_discarded :
    Installer.remove demoDownloadedState "13.1.7" demoRemoveEnv =
      demoDownloadedState ∧
    Installer.state (Installer.remove demoDownloadedState "13.1.7"
        demoRemoveEnv) "13.1.7" = InstallState.downloaded ∧
    rerunner demoRemoveEnv.zipCleanFails 1 = (false, [1, 2]) ∧
    demoRemoveEnv.zipCleanFails 2 = false := by
  have hzip : rerunner demoRemoveEnv.zipCleanFails 1 = (false, [1, 2]) := by
    rw [rerunner, rerunner]
    norm_num [demoRemoveEnv]
  have hpath : rerunner demoRemoveEnv.preInstalledCleanFails 1 = (false, [1, 2, 3, 4]) := by
    rw [rerunner, rerunner, rerunner, rerunner]
    norm_num [demoRemoveEnv]
  have hrm : Installer.remove demoDownloadedState "13.1.7" demoRemoveEnv =
      demoDownloadedState := by
    unfold Installer.remove
    rw [hzip, hpath]
    norm_num [demoDownloadedState, Installer.installedVersion]
  refine ⟨hrm, by rw [hrm]; decide, hzip, by decide⟩

/-- C6: when `bisect` does not succeed (the boundary results are not a
clean pass/fail pair), the reported status is determined exactly as the
spec says: if the while loop was aborted by a `test_error`/`system_error`
verdict (held in the loop's `result` variable), that status is reported
directly with no range; otherwise `test_error` when the two boundary
results are equal; otherwise `system_error` — always with no range. -/
theorem bisect_failure_classification (versions : List String)
    (verdict : String → TestResult) (st : BisectState) (rl rr : TestResult)
    (hst : bisectSearch versions verdict = some st)
    (hl : arrGet st.results st.left = some rl)
    (hr : arrGet st.results st.right = some rr)
    (hns : ¬(rl = TestResult.test_passed ∧ rr = TestResult.test_failed)) :
    bisect versions verdict = some ⟨none,
      if st.result = some TestResult.test_error then BisectStatus.test_error
      else if st.result = some TestResult.system_error then
        BisectStatus.system_error
      else if rl = rr then BisectStatus.test_error
      else BisectStatus.system_error⟩ := by
  unfold bisect
  rw [hst]
  simp only []
  unfold classify
  rw [hl, hr]
  simp only []
  rw [if_neg hns]
  by_cases h1 : st.result = some TestResult.test_error
  · rw [if_pos h1, if_pos h1]
  · rw [if_neg h1, if_neg h1]
    by_cases h2 : st.result = some TestResult.system_error
    · rw [if_pos h2, if_pos h2]
    · rw [if_neg h2, if_neg h2]
      by_cases h3 : rl = rr
      · rw [if_pos h3, if_pos h3]
      · rw [if_neg h3, if_neg h3]

/-- Witness for C6: three versions that all report `test_error`; the loop
aborts at the midpoint and that verdict is reported with no range. -/
theorem bisect_failure_classification_witness :
    bisect demoErrVersions demoErrVerdict =
      some ⟨none, BisectStatus.test_error⟩ := by
  have hst : bisectSearch demoErrVersions demoErrVerdict =
      some ⟨0, 2, some TestResult.test_error,
        [some TestResult.test_error, some TestResult.test_error,
          some TestResult.test_error]⟩ := by
    unfold bisectSearch
    rw [bisectLoop]
    norm_num [demoErrVersions, demoErrVerdict, verGet, arrSet, boundariesOf,
      arrGet, runBoundaries]
    decide
  have h := bisect_failure_classification demoErrVersions demoErrVerdict
    ⟨0, 2, some TestResult.test_error,
      [some TestResult.test_error, some TestResult.test_error,
        some TestResult.test_error]⟩
    TestResult.test_error TestResult.test_error hst (by decide) (by decide)
    (by decide)
  simpa using h

/-- C9 (counterexample): for a version range that resolves to the empty
list, `bisect` does not terminate without error — the boundary
confirmation reads `versions[0].version` of an `undefined` element and the
call rejects with a TypeError (modelled by `none`). -/
theorem bisect_empty_range_crashes :
    bisect [] (fun _ => TestResult.test_passed) = none := by
  unfold bisect bisectSearch
  rw [bisectLoop]
  norm_num [boundariesOf, arrGet, runBoundaries, verGet]

/-! Lemmas for the binary-search loop. -/

theorem verGet_int (versions : List String) (i : Int) (h0 : 0 ≤ i)
    (hlen : i < (versions.length : Int)) :
    ∃ v, versions.get? i.toNat = some v ∧ verGet versions i = some v ∧
      versions.getD i.toNat "" = v := by
  have hnat : i.toNat < versions.length := by omega
  obtain ⟨v, hv⟩ : ∃ v, versions.get? i.toNat = some v := by
    rw [List.get?_eq_get hnat]
    exact ⟨_, rfl⟩
  refine ⟨v, hv, by rw [verGet_eq_get? _ _ h0, hv], ?_⟩
  simp [List.getD_eq_getElem?_getD, ← List.get?_eq_getElem?, hv]

theorem runBoundaries_cons_some (versions : List String)
    (verdict : String → TestResult) (pos : Int) (rest : List Int)
    (results : List (Option TestResult)) (v : String)
    (h : verGet versions pos = some v) :
    runBoundaries versions verdict (pos :: rest) results =
      runBoundaries versions verdict rest (arrSet results pos (verdict v)) := by
  conv_lhs => rw [runBoundaries]
  rw [h]

/-- The invariant-carrying correctness of the `while` loop of `bisect`
for a monotone verdict oracle with boundary index `k` (versions at
indices `≤ k` pass, those after fail): the loop terminates normally with
the pointers converged to `(k, k + 1)`, and each pointer is either still
at its untested original bound or carries its recorded verdict. -/
theorem bisectLoop_monotone (versions : List String)
    (verdict : String → TestResult) (k : Nat)
    (hpass : ∀ i : Nat, i < versions.length → i ≤ k →
      verdict (versions.getD i "") = TestResult.test_passed)
    (hfail : ∀ i : Nat, i < versions.length → k < i →
      verdict (versions.getD i "") = TestResult.test_failed) :
    ∀ fuel : Nat, ∀ left right : Int, ∀ res : Option TestResult,
      ∀ results : List (Option TestResult),
      (right - left).toNat ≤ fuel →
      0 ≤ left → left ≤ (k : Int) → (k : Int) < right →
      right ≤ (versions.length : Int) - 1 →
      results.length = versions.length →
      ((left = 0 ∧ arrGet results 0 = none) ∨
        arrGet results left = some TestResult.test_passed) →
      ((right = (versions.length : Int) - 1 ∧
          arrGet results ((versions.length : Int) - 1) = none) ∨
        arrGet results right = some TestResult.test_failed) →
      ∃ out : BisectState,
        bisectLoop versions verdict left right res results = some out ∧
        out.left = (k : Int) ∧ out.right = (k : Int) + 1 ∧
        out.results.length = versions.length ∧
        ((out.left = 0 ∧ arrGet out.results 0 = none) ∨
          arrGet out.results out.left = some TestResult.test_passed) ∧
        ((out.right = (versions.length : Int) - 1 ∧
            arrGet out.results ((versions.length : Int) - 1) = none) ∨
          arrGet out.results out.right = some TestResult.test_failed) := by
  intro fuel
  induction fuel with
  | zero =>
    intro left right res results hfuel h0 hlk hkr hrn hlen hla hra
    exact absurd hfuel (by omega)
  | succ fuel ih =>
    intro left right res results hfuel h0 hlk hkr hrn hlen hla hra
    by_cases hguard : left + 1 < right
    · rw [bisectLoop, dif_pos hguard]
      simp only []
      have hmid1 : left < left + (((right - left + 1).toNat / 2 : Nat) : Int) := by
        omega
      have hmid2 : left + (((right - left + 1).toNat / 2 : Nat) : Int) < right := by
        omega
      obtain ⟨ver, hver, hverget, hgetD⟩ := verGet_int versions
        (left + (((right - left + 1).toNat / 2 : Nat) : Int)) (by omega) (by omega)
      rw [hverget]
      simp only []
      by_cases hmk : left + (((right - left + 1).toNat / 2 : Nat) : Int) ≤ (k : Int)
      · have hpassmid : verdict ver = TestResult.test_passed := by
          rw [← hgetD]
          exact hpass _ (by omega) (by omega)
        rw [hpassmid]
        simp only []
        apply ih
        · omega
        · omega
        · exact hmk
        · exact hkr
        · exact hrn
        · rw [length_arrSet]; exact hlen
        · right
          rw [← hpassmid]
          exact arrGet_arrSet_self results _ (verdict ver) (by omega) (by omega)
        · rcases hra with ⟨hr1, hr2⟩ | hr2
          · left
            refine ⟨hr1, ?_⟩
            rw [arrGet_arrSet_ne _ _ _ _ (by omega), hr2]
          · right
            rw [arrGet_arrSet_ne _ _ _ _ (by omega), hr2]
      · have hfailmid : verdict ver = TestResult.test_failed := by
          rw [← hgetD]
          exact hfail _ (by omega) (by omega)
        rw [hfailmid]
        simp only []
        apply ih
        · omega
        · exact h0
        · exact hlk
        · omega
        · omega
        · rw [length_arrSet]; exact hlen
        · rcases hla with ⟨hl1, hl2⟩ | hl2
          · left
            refine ⟨hl1, ?_⟩
            rw [arrGet_arrSet_ne _ _ _ _ (by omega), hl2]
          · right
            rw [arrGet_arrSet_ne _ _ _ _ (by omega), hl2]
        · right
          rw [← hfailmid]
          exact arrGet_arrSet_self results _ (verdict ver) (by omega) (by omega)
    · rw [bisectLoop, dif_neg hguard]
      have hleft : left = (k : Int) := by omega
      have hright : right = (k : Int) + 1 := by omega
      refine ⟨⟨left, right, res, results⟩, rfl, hleft, hright, hlen, ?_, ?_⟩
      · exact hla
      · exact hra

theorem classify_success (versions : List String) (st : BisectState)
    (good bad : String)
    (hl : arrGet st.results st.left = some TestResult.test_passed)
    (hr : arrGet st.results st.right = some TestResult.test_failed)
    (hg : verGet versions st.left = some good)
    (hb : verGet versions st.right = some bad) :
    classify versions st =
      some ⟨some (good, bad), BisectStatus.bisect_succeeded⟩ := by
  unfold classify
  rw [hl, hr]
  simp only []
  rw [if_pos (show True ∧ True from ⟨trivial, trivial⟩), hg, hb]

/-- C2: for every range of `N ≥ 2` versions whose verdicts are monotone,
with the versions at indices `0..k` passing and those at `k+1..N-1`
failing (at least one of each), `bisect` runs the binary search and
returns `{status: bisect_succeeded, range: [versions[k], versions[k+1]]}`
— the last passing version and the adjacent first failing version. -/
theorem bisect_monotone_succeeds (versions : List String)
    (verdict : String → TestResult) (k : Nat)
    (hk1 : k + 1 < versions.length)
    (hpass : ∀ i : Nat, i < versions.length → i ≤ k →
      verdict (versions.getD i "") = TestResult.test_passed)
    (hfail : ∀ i : Nat, i < versions.length → k < i →
      verdict (versions.getD i "") = TestResult.test_failed) :
    ∃ good bad, versions.get? k = some good ∧ versions.get? (k + 1) = some bad ∧
      bisect versions verdict =
        some ⟨some (good, bad), BisectStatus.bisect_succeeded⟩ := by
  obtain ⟨out, hloop, hol, hor, holen, hla, hra⟩ :=
    bisectLoop_monotone versions verdict k hpass hfail
      versions.length 0 ((versions.length : Int) - 1) none
      (List.replicate versions.length none)
      (by omega) (by omega) (by omega) (by omega) (by omega)
      (by rw [List.length_replicate])
      (Or.inl ⟨rfl, arrGet_replicate _ _⟩)
      (Or.inl ⟨rfl, arrGet_replicate _ _⟩)
  obtain ⟨good, hgood, hgoodget, hgoodD⟩ :=
    verGet_int versions (k : Int) (by omega) (by omega)
  obtain ⟨bad, hbad, hbadget, hbadD⟩ :=
    verGet_int versions ((k : Int) + 1) (by omega) (by omega)
  have htk : ((k : Int)).toNat = k := by omega
  have htk1 : ((k : Int) + 1).toNat = k + 1 := by omega
  rw [htk] at hgood hgoodD
  rw [htk1] at hbad hbadD
  have hpassgood : verdict good = TestResult.test_passed := by
    rw [← hgoodD]
    exact hpass k (by omega) (le_refl k)
  have hfailbad : verdict bad = TestResult.test_failed := by
    rw [← hbadD]
    exact hfail (k + 1) (by omega) (by omega)
  have hggL : verGet versions out.left = some good := by rw [hol]; exact hgoodget
  have hbgR : verGet versions out.right = some bad := by rw [hor]; exact hbadget
  refine ⟨good, bad, hgood, hbad, ?_⟩
  -- compute the boundary-confirmation phase case by case
  rcases hla with ⟨hla1, hla2⟩ | hla2 <;> rcases hra with ⟨hra1, hra2⟩ | hra2
  · -- neither pointer ever moved: both boundaries are run
    have hbd : boundariesOf versions out =
        [(0 : Int), (versions.length : Int) - 1] := by
      unfold boundariesOf
      rw [if_pos ⟨hla1, hla2⟩, if_pos ⟨hra1, hra2⟩]
      rfl
    have hgg0 : verGet versions 0 = some good := by rw [← hla1]; exact hggL
    have hbgN : verGet versions ((versions.length : Int) - 1) = some bad := by
      rw [← hra1]; exact hbgR
    have hNne : (versions.length : Int) - 1 ≠ 0 := by omega
    have hrun : runBoundaries versions verdict (boundariesOf versions out)
        out.results = some (arrSet (arrSet out.results 0 (verdict good))
          ((versions.length : Int) - 1) (verdict bad)) := by
      rw [hbd, runBoundaries_cons_some _ _ _ _ _ _ hgg0,
        runBoundaries_cons_some _ _ _ _ _ _ hbgN]
      rfl
    have hsearch : bisectSearch versions verdict =
        some ⟨out.left, out.right, out.result,
          arrSet (arrSet out.results 0 (verdict good))
            ((versions.length : Int) - 1) (verdict bad)⟩ := by
      unfold bisectSearch
      rw [hloop]
      simp only []
      rw [hrun]
    unfold bisect
    rw [hsearch]
    simp only []
    apply classify_success
    · show arrGet (arrSet (arrSet out.results 0 (verdict good))
        ((versions.length : Int) - 1) (verdict bad)) out.left =
          some TestResult.test_passed
      rw [hla1, arrGet_arrSet_ne _ _ _ _ hNne,
        arrGet_arrSet_self _ _ _ (by omega) (by omega), hpassgood]
    · show arrGet (arrSet (arrSet out.results 0 (verdict good))
        ((versions.length : Int) - 1) (verdict bad)) out.right =
          some TestResult.test_failed
      rw [hra1, arrGet_arrSet_self _ _ _ (by omega)
        (by rw [length_arrSet]; omega), hfailbad]
    · exact hggL
    · exact hbgR
  · -- left never moved, right carries a failed verdict
    have hc2 : ¬(out.right = (versions.length : Int) - 1 ∧
        arrGet out.results ((versions.length : Int) - 1) = none) := by
      rintro ⟨c1, c2⟩
      rw [← c1, hra2] at c2
      exact Option.noConfusion c2
    have hbd : boundariesOf versions out = [(0 : Int)] := by
      unfold boundariesOf
      rw [if_pos ⟨hla1, hla2⟩, if_neg hc2]
      rfl
    have hgg0 : verGet versions 0 = some good := by rw [← hla1]; exact hggL
    have hrun : runBoundaries versions verdict (boundariesOf versions out)
        out.results = some (arrSet out.results 0 (verdict good)) := by
      rw [hbd, runBoundaries_cons_some _ _ _ _ _ _ hgg0]
      rfl
    have hsearch : bisectSearch versions verdict =
        some ⟨out.left, out.right, out.result,
          arrSet out.results 0 (verdict good)⟩ := by
      unfold bisectSearch
      rw [hloop]
      simp only []
      rw [hrun]
    unfold bisect
    rw [hsearch]
    simp only []
    apply classify_success
    · show arrGet (arrSet out.results 0 (verdict good)) out.left =
        some TestResult.test_passed
      rw [hla1, arrGet_arrSet_self _ _ _ (by omega) (by omega), hpassgood]
    · show arrGet (arrSet out.results 0 (verdict good)) out.right =
        some TestResult.test_failed
      rw [arrGet_arrSet_ne _ _ _ _ (by omega : (0 : Int) ≠ out.right), hra2]
    · exact hggL
    · exact hbgR
  · -- right never moved, left carries a passed verdict
    have hc1 : ¬(out.left = 0 ∧ arrGet out.results 0 = none) := by
      rintro ⟨c1, c2⟩
      rw [← c1, hla2] at c2
      exact Option.noConfusion c2
    have hbd : boundariesOf versions out =
        [(versions.length : Int) - 1] := by
      unfold boundariesOf
      rw [if_neg hc1, if_pos ⟨hra1, hra2⟩]
      rfl
    have hbgN : verGet versions ((versions.length : Int) - 1) = some bad := by
      rw [← hra1]; exact hbgR
    have hrun : runBoundaries versions verdict (boundariesOf versions out)
        out.results = some (arrSet out.results
          ((versions.length : Int) - 1) (verdict bad)) := by
      rw [hbd, runBoundaries_cons_some _ _ _ _ _ _ hbgN]
      rfl
    have hsearch : bisectSearch versions verdict =
        some ⟨out.left, out.right, out.result,
          arrSet out.results ((versions.length : Int) - 1) (verdict bad)⟩ := by
      unfold bisectSearch
      rw [hloop]
      simp only []
      rw [hrun]
    unfold bisect
    rw [hsearch]
    simp only []
    apply classify_success
    · show arrGet (arrSet out.results ((versions.length : Int) - 1)
        (verdict bad)) out.left = some TestResult.test_passed
      rw [arrGet_arrSet_ne _ _ _ _
        (by omega : (versions.length : Int) - 1 ≠ out.left), hla2]
    · show arrGet (arrSet out.results ((versions.length : Int) - 1)
        (verdict bad)) out.right = some TestResult.test_failed
      rw [hra1, arrGet_arrSet_self _ _ _ (by omega) (by omega), hfailbad]
    · exact hggL
    · exact hbgR
  · -- both pointers carry verdicts: no boundary is run
    have hc1 : ¬(out.left = 0 ∧ arrGet out.results 0 = none) := by
      rintro ⟨c1, c2⟩
      rw [← c1, hla2] at c2
      exact Option.noConfusion c2
    have hc2 : ¬(out.right = (versions.length : Int) - 1 ∧
        arrGet out.results ((versions.length : Int) - 1) = none) := by
      rintro ⟨c1, c2⟩
      rw [← c1, hra2] at c2
      exact Option.noConfusion c2
    have hbd : boundariesOf versions out = [] := by
      unfold boundariesOf
      rw [if_neg hc1, if_neg hc2]
      rfl
    have hsearch : bisectSearch versions verdict =
        some ⟨out.left, out.right, out.result, out.results⟩ := by
      unfold bisectSearch
      rw [hloop]
      simp only []
      rw [hbd]
      rfl
    unfold bisect
    rw [hsearch]
    simp only []
    exact classify_success versions _ good bad hla2 hra2 hggL hbgR

/-- Witness for C2: the spec's six-version scenario, boundary k = 4. -/
theorem bisect_monotone_succeeds_witness :
    bisect demoVersions demoVerdict =
      some ⟨some ("12.0.4", "12.0.5"), BisectStatus.bisect_succeeded⟩ := by
  obtain ⟨good, bad, hg, hb, hres⟩ :=
    bisect_monotone_succeeds demoVersions demoVerdict 4
      (by decide) (by decide) (by decide)
  have hg' : good = "12.0.4" := by
    have : demoVersions.get? 4 = some "12.0.4" := by decide
    rw [this] at hg
    exact (Option.some.inj hg).symm
  have hb' : bad = "12.0.5" := by
    have : demoVersions.get? 5 = some "12.0.5" := by decide
    rw [this] at hb
    exact (Option.some.inj hb).symm
  rw [hg', hb'] at hres
  exact hres

/-- C1: at most one version is `installed` at any observable point.  For a
successful `installVersionImpl(v)` run from a state where some other
version `w` was installed (with the spec's invariant holding), every
intermediate state of the transition satisfies the at-most-one-installed
invariant, and the final state has demoted `w` to `downloaded` and
promoted `v` to `installed` in the same transition. -/
theorem install_at_most_one_installed (st : InstallerState) (w v : String)
    (hnd : KeysNodup st.stateMap) (hamo : AtMostOneInstalled st.stateMap)
    (hw : Installer.installedVersion st = some w) (hne : w ≠ v) :
    (∀ s ∈ installVersionImplTrace st v none, AtMostOneInstalled s.stateMap) ∧
    Installer.state (installVersionImpl st v none).1 w = InstallState.downloaded ∧
    Installer.state (installVersionImpl st v none).1 v = InstallState.installed ∧
    (installVersionImpl st v none).2 = true := by
  have hnd1 : KeysNodup (Installer.setState st v InstallState.installing).stateMap :=
    keysNodup_setState st v InstallState.installing hnd
  have hnd2 : KeysNodup (Installer.setState (Installer.setState st v
      InstallState.installing) w InstallState.downloaded).stateMap :=
    keysNodup_setState _ w InstallState.downloaded hnd1
  have hno : NoOtherInstalled st.stateMap w :=
    noOther_of_installedVersion st w hamo hw
  have hno1 : NoOtherInstalled (Installer.setState st v
      InstallState.installing).stateMap w :=
    noOther_setState st v w InstallState.installing hnd (by decide) hno
  have hzero2 : ∀ p ∈ (Installer.setState (Installer.setState st v
      InstallState.installing) w InstallState.downloaded).stateMap,
      p.2 ≠ InstallState.installed :=
    noInstalled_setState_demote _ w hnd1 hno1
  have amo1 : AtMostOneInstalled (Installer.setState st v
      InstallState.installing).stateMap :=
    amo_setState_not_installed st v InstallState.installing hnd (by decide) hamo
  have amo2 : AtMostOneInstalled (Installer.setState (Installer.setState st v
      InstallState.installing) w InstallState.downloaded).stateMap :=
    amo_setState_not_installed _ w InstallState.downloaded hnd1 (by decide) amo1
  have amo3 : AtMostOneInstalled (Installer.setState (Installer.setState
      (Installer.setState st v InstallState.installing) w
      InstallState.downloaded) v InstallState.installed).stateMap :=
    amo_setState_installed _ v hnd2 (fun p hp hpi => absurd hpi (hzero2 p hp))
  have htrace : installVersionImplTrace st v none =
      [st, Installer.setState st v InstallState.installing,
        Installer.setState (Installer.setState st v InstallState.installing) w
          InstallState.downloaded,
        Installer.setState (Installer.setState (Installer.setState st v
          InstallState.installing) w InstallState.downloaded) v
          InstallState.installed] := by
    unfold installVersionImplTrace
    rw [hw]
  have himpl : installVersionImpl st v none =
      (Installer.setState (Installer.setState (Installer.setState st v
        InstallState.installing) w InstallState.downloaded) v
        InstallState.installed, true) := by
    unfold installVersionImpl
    rw [hw]
  refine ⟨?_, ?_, ?_, ?_⟩
  · intro s hs
    rw [htrace] at hs
    rcases List.mem_cons.mp hs with h | hs
    · rw [h]; exact hamo
    rcases List.mem_cons.mp hs with h | hs
    · rw [h]; exact amo1
    rcases List.mem_cons.mp hs with h | hs
    · rw [h]; exact amo2
    rcases List.mem_cons.mp hs with h | hs
    · rw [h]; exact amo3
    · simp at hs
  · rw [himpl]
    simp only []
    rw [state_setState_ne _ v w InstallState.installed hne]
    exact state_setState_self _ w InstallState.downloaded hnd1
  · rw [himpl]
    simp only []
    exact state_setState_self _ v InstallState.installed hnd2
  · rw [himpl]

/-- Witness for C1: installing `13.1.7` while `12.0.15` is installed. -/
theorem install_at_most_one_installed_witness :
    (∀ s ∈ installVersionImplTrace demoState "13.1.7" none,
      AtMostOneInstalled s.stateMap) ∧
    Installer.state (installVersionImpl demoState "13.1.7" none).1 "12.0.15" =
      InstallState.downloaded ∧
    Installer.state (installVersionImpl demoState "13.1.7" none).1 "13.1.7" =
      InstallState.installed ∧
    (installVersionImpl demoState "13.1.7" none).2 = true :=
  install_at_most_one_installed demoState "12.0.15" "13.1.7"
    (by decide) (by decide) (by decide) (by decide)

/-! Fold helpers for the `rebuildStates` scan. -/

theorem state_foldl_setState_fixed (l : List String) (s : InstallState)
    (v : String) (hv : v ∉ l) (acc : InstallerState) :
    Installer.state (l.foldl
        (fun a version => Installer.setState a version s) acc) v =
      Installer.state acc v := by
  induction l generalizing acc with
  | nil => rfl
  | cons x rest ih =>
    simp only [List.foldl_cons]
    rw [ih (fun hmem => hv (List.mem_cons.mpr (Or.inr hmem))),
      state_setState_ne _ _ _ _ (fun hx => hv (List.mem_cons.mpr (Or.inl hx)))]

theorem state_downloadScanStep_ne (platform arch : String) (dsk : DiskState)
    (acc : InstallerState) (f v : String)
    (h : downloadScanKey platform arch dsk f ≠ some v) :
    Installer.state (downloadScanStep platform arch dsk acc f) v =
      Installer.state acc v := by
  unfold downloadScanStep
  unfold downloadScanKey at h
  rcases hz : matchZip platform arch f with _ | wz
  · rcases hd : dsk.dirVersion f with _ | wd
    · simp only [hz, hd]
    · simp only [hz, hd] at h ⊢
      by_cases hvs : dsk.validSemver wd
      · rw [if_pos hvs]
        rw [if_pos hvs] at h
        exact state_setState_ne _ _ _ _ (fun he => h (by rw [he]))
      · rw [if_neg hvs]
  · simp only [hz] at h ⊢
    exact state_setState_ne _ _ _ _ (fun he => h (by rw [he]))

theorem state_foldl_downloadScan (platform arch : String) (dsk : DiskState)
    (files : List String) (v : String)
    (hv : ∀ f ∈ files, downloadScanKey platform arch dsk f ≠ some v)
    (acc : InstallerState) :
    Installer.state (files.foldl (downloadScanStep platform arch dsk) acc) v =
      Installer.state acc v := by
  induction files generalizing acc with
  | nil => rfl
  | cons f rest ih =>
    simp only [List.foldl_cons]
    rw [ih (fun g hg => hv g (List.mem_cons.mpr (Or.inr hg))),
      state_downloadScanStep_ne platform arch dsk acc f v
        (hv f (List.mem_cons.mpr (Or.inl rfl)))]

/-- C7 (counterexample): after a rebuild where the install-directory
marker names `13.1.7` and the download directory also holds that
version's zip, the rebuilt store reports `downloaded`, not `installed` —
the download-directory scan runs after the install-directory scan and its
`setState` overwrites the `installed` entry. -/
theorem rebuildStates_zip_overwrites_marker :
    Installer.state (Installer.rebuildStates "linux" "x64" demoDisk
      emptyInstallerState) "13.1.7" = InstallState.downloaded ∧
    Installer.state (Installer.rebuildStates "linux" "x64" demoDisk
      emptyInstallerState) "13.1.7" ≠ InstallState.installed := by
  refine ⟨by decide, by decide⟩

/-- C7 (amended): `rebuildStates` scans the install directory, the
in-flight installing set, the download directory and the in-flight
download map in that order, but a later scan's `setState` overwrites an
earlier one's; a version whose marker file is present in the install
directory is reported `installed` only when no download-directory entry
resolves to that same version and the version is not in an in-flight set.
(When its archive is also present in the download directory the rebuilt
state is `downloaded` instead.) -/
theorem rebuildStates_marker_installed (platform arch : String)
    (dsk : DiskState) (st0 : InstallerState) (v : String)
    (hm : dsk.installMarker = some v)
    (hfiles : ∀ f ∈ dsk.downloadFiles,
      downloadScanKey platform arch dsk f ≠ some v)
    (hinst : v ∉ st0.installing)
    (hdl : v ∉ st0.downloading.map Prod.fst) :
    Installer.state (Installer.rebuildStates platform arch dsk st0) v =
      InstallState.installed := by
  unfold Installer.rebuildStates
  rw [hm]
  rw [state_foldl_setState_fixed _ _ _ hdl,
    state_foldl_downloadScan _ _ _ _ _ hfiles,
    state_foldl_setState_fixed _ _ _ hinst]
  exact state_setState_self _ v InstallState.installed (by simp [KeysNodup])

/-- Witness for C7 (amended): marker `13.1.7`, download directory holding
only `12.0.15`'s zip. -/
theorem rebuildStates_marker_installed_witness :
    Installer.state (Installer.rebuildStates "linux" "x64" demoDiskOther
      emptyInstallerState) "13.1.7" = InstallState.installed :=
  rebuildStates_marker_installed "linux" "x64" demoDiskOther
    emptyInstallerState "13.1.7" (by decide) (by decide) (by decide) (by decide)

/-- C9 (amended): for a single-entry version list the binary-search loop
body never executes (the loop returns its inputs unchanged) and `bisect`
terminates without error, reporting the trivially inconclusive
`{status: test_error}` with no range; for the empty list the
boundary-confirmation step crashes instead. -/
theorem bisect_singleton_trivially_inconclusive (v : String)
    (verdict : String → TestResult) :
    bisectLoop [v] verdict 0 0 none [none] = some ⟨0, 0, none, [none]⟩ ∧
    bisect [v] verdict = some ⟨none, BisectStatus.test_error⟩ := by
  have hloop : bisectLoop [v] verdict 0 0 none [none] =
      some ⟨0, 0, none, [none]⟩ := by
    rw [bisectLoop]
    norm_num
  refine ⟨hloop, ?_⟩
  unfold bisect bisectSearch
  simp only [List.length_cons, List.length_nil, List.replicate]
  rw [show ((1 : Nat) : Int) - 1 = 0 by norm_num] at *
  rw [hloop]
  simp only [boundariesOf]
  norm_num [arrGet]
  unfold runBoundaries
  simp only [verGet, arrSet]
  norm_num
  unfold runBoundaries
  simp only [verGet, arrSet]
  norm_num
  unfold runBoundaries classify
  simp only [arrGet]
  norm_num
  rcases hv : verdict v <;> simp

end FiddleCore
